import Mathlib

/-!
Verification of the StaticMCP bridge session transport layer.

Two components are modelled:

* the per-session event log (`InMemoryEventStore` in the repository), whose
  implementation file is not part of the sources at hand (only its test suite
  `tests/eventStore.test.ts` is); it is therefore modelled from the
  specification text (section 4.1 of the spec), and
* the session transport manager (`TransportManager` in `src/bridge.js`),
  together with the hosted-mode `/mcp` route handler (`setupMcpRoutes`),
  translated directly from the source.

Machine integers do not occur: sequence counters are unbounded in the
JavaScript source (`Number` used as a counter / timestamp), so `Nat` is used
directly.  External collaborators (the SDK transport, `isInitializeRequest`,
`new URL(...)`, per-transport `close()`) are modelled as oracle inputs, since
their behaviour is outside this layer.
-/

namespace StaticMCP

/-! ## Definitions -/

/-! ### Decimal rendering of the per-store counter

The event log renders its monotone counter as a decimal string inside the
event id.  The helpers below give a fuel-based (hence structurally recursive
and kernel-computable) little-endian digit list, together with a decode
function used to prove injectivity of the rendering.
-/

/-- Little-endian decimal digits of `n`, with explicit fuel: `revDigitsAux f n`
is the digit list of `n` provided `n ≤ f`. -/
def revDigitsAux : Nat → Nat → List Char
  | _, 0 => []
  | 0, _ + 1 => []
  | fuel + 1, n + 1 => Nat.digitChar ((n + 1) % 10) :: revDigitsAux fuel ((n + 1) / 10)

/-- Little-endian decimal digits of `n` (empty for `0`). -/
def counterDigits (n : Nat) : List Char := revDigitsAux n n

/-- Decode a little-endian decimal digit list back to a number. -/
def decodeRevDigits : List Char → Nat
  | [] => 0
  | c :: cs => (c.toNat - 48) + 10 * decodeRevDigits cs

/-- Decimal string for the counter component of an event id: standard decimal
notation, `"0"` for zero. -/
def counterRepr (n : Nat) : String :=
  if n = 0 then "0" else String.mk (counterDigits n).reverse

/-! ### Event log (`InMemoryEventStore`)

The implementation file `src/eventStore.ts` is not among the sources; only its
test suite `tests/eventStore.test.ts` is.  The definitions below are therefore
modelled from the specification (spec section 4.1), with the nondeterministic
timestamp-and-random-suffix component of the observed event-id format
abstracted as a per-store monotone counter, rendered in decimal inside the id.
-/

/-- Modelled from the spec: one event of the in-memory log, "an immutable
record `{ id, streamId, payload, sequence }`" (spec section 3); the payload
type is opaque to the log. -/
structure Event (Msg : Type) where
  id : String
  streamId : String
  message : Msg
  sequence : Nat
  deriving DecidableEq

/-- Modelled from the spec: the in-memory event log (`InMemoryEventStore`),
an append-only ordered structure of events plus the monotone counter used to
assign sequences and mint unique ids. -/
structure InMemoryEventStore (Msg : Type) where
  events : List (Event Msg)
  counter : Nat
  deriving DecidableEq

/-- The freshly constructed event log (`new InMemoryEventStore()`). -/
def emptyStore (Msg : Type) : InMemoryEventStore Msg := ⟨[], 0⟩

/-- Modelled from the spec: the minted event id "must produce an id that is
(i) unique across all calls for the lifetime of the log, (ii) able to encode
`streamId` ..." (spec section 4.1); the id is the stream id, an underscore,
and the decimal rendering of the store counter at mint time. -/
def generateEventId (streamId : String) (counter : Nat) : String :=
  streamId ++ "_" ++ counterRepr counter

/-- Modelled from the spec: `append(streamId, message) -> eventId`
(`storeEvent` in the tests).  Always succeeds; the event is appended to the
in-memory ordered structure with the next sequence number, and the minted id
is returned together with the updated store. -/
def storeEvent (st : InMemoryEventStore Msg) (streamId : String) (message : Msg) :
    String × InMemoryEventStore Msg :=
  let eventId := generateEventId streamId st.counter
  (eventId, ⟨st.events ++ [⟨eventId, streamId, message, st.counter⟩], st.counter + 1⟩)

/-- Modelled from the spec: `replayAfter(lastEventId, sink) -> streamId | empty`
(`replayEventsAfter` in the tests).  Looks up `lastEventId`; if not found
(malformed, unknown, empty or foreign-log id) returns the empty stream identity
and delivers nothing; otherwise returns the stream id of the found event and
the `(eventId, message)` pairs delivered to the sink, in store order: exactly
the events with the same stream id and a strictly greater sequence. -/
def replayEventsAfter (st : InMemoryEventStore Msg) (lastEventId : String) :
    String × List (String × Msg) :=
  match st.events.find? (fun e => e.id == lastEventId) with
  | none => ("", [])
  | some e =>
    (e.streamId,
      (st.events.filter
        (fun e2 => e2.streamId == e.streamId && decide (e.sequence < e2.sequence))).map
        (fun e2 => (e2.id, e2.message)))

/-- The events a replay call delivers to the sink, as events (the same
filtering as `replayEventsAfter`, before projecting to `(id, message)`). -/
def replayedEvents (st : InMemoryEventStore Msg) (lastEventId : String) :
    List (Event Msg) :=
  match st.events.find? (fun e => e.id == lastEventId) with
  | none => []
  | some e =>
    st.events.filter
      (fun e2 => e2.streamId == e.streamId && decide (e.sequence < e2.sequence))

/-- Run a sequence of appends from a given store. -/
def runFrom (st : InMemoryEventStore Msg) (ops : List (String × Msg)) :
    InMemoryEventStore Msg :=
  ops.foldl (fun s p => (storeEvent s p.1 p.2).2) st

/-- Run a sequence of appends from the empty store. -/
def runTrace (Msg : Type) (ops : List (String × Msg)) : InMemoryEventStore Msg :=
  runFrom (emptyStore Msg) ops

/-- The event ids returned by a sequence of appends starting from `st`. -/
def traceIdsFrom (st : InMemoryEventStore Msg) : List (String × Msg) → List String
  | [] => []
  | p :: rest =>
    (storeEvent st p.1 p.2).1 :: traceIdsFrom (storeEvent st p.1 p.2).2 rest

/-- The event ids returned by a sequence of appends on a fresh store. -/
def traceIds (Msg : Type) (ops : List (String × Msg)) : List String :=
  traceIdsFrom (emptyStore Msg) ops

/-- Invariant of every reachable store: sequences are below the counter,
events are listed in strictly increasing sequence order, and every event id is
the minted id of its stream and sequence. -/
structure StoreInv (st : InMemoryEventStore Msg) : Prop where
  seq_lt : ∀ e ∈ st.events, e.sequence < st.counter
  sorted : st.events.Pairwise (fun a b => a.sequence < b.sequence)
  id_eq : ∀ e ∈ st.events, e.id = generateEventId e.streamId e.sequence

/-! ### Session transport manager (`TransportManager` in `src/bridge.js`)

The session table is modelled by its key set (the live session ids); the
transport objects themselves are external and their behaviour per request is
an oracle (`TransportBehavior`).
-/

/-- JSON values, used to state the literal response bodies written by
`src/bridge.js`. -/
inductive Json where
  | null
  | num (n : Int)
  | str (s : String)
  | obj (fields : List (String × Json))

/-- The literal 400 response body of `handleMcpRequest`
(`src/bridge.js` lines 330-338). -/
def badRequestBody : Json :=
  .obj [("jsonrpc", .str "2.0"),
        ("error", .obj [("code", .num (-32000)),
                        ("message",
                          .str "Bad Request: No valid session ID provided or invalid initialization request")]),
        ("id", .null)]

/-- The literal 500 response body of `handleMcpRequest`
(`src/bridge.js` lines 345-353). -/
def internalErrorBody : Json :=
  .obj [("jsonrpc", .str "2.0"),
        ("error", .obj [("code", .num (-32603)),
                        ("message", .str "Internal server error")]),
        ("id", .null)]

/-- The literal 400 body for a missing `url` query parameter in hosted mode
(`src/bridge.js` lines 373-376). -/
def missingUrlBody : Json :=
  .obj [("error", .str "Missing required URL parameter"),
        ("usage", .str "GET /mcp?url=https://staticmcp.com/mcp")]

/-- The literal 400 body for an unparsable `url` query parameter in hosted
mode (`src/bridge.js` lines 383-386). -/
def invalidUrlBody (provided : String) : Json :=
  .obj [("error", .str "Invalid URL parameter"),
        ("provided", .str provided)]

/-- Truthiness of an optional string (header or query value) in JavaScript:
absent, or present but empty, is falsy. -/
def strTruthy : Option String → Bool
  | none => false
  | some s => !(s == "")

/-- An inbound request as seen by `TransportManager.handleMcpRequest`: the
`mcp-session-id` header (absent or its string value), the HTTP method, and
the outcome of the external SDK predicate `isInitializeRequest(req.body)`. -/
structure McpRequest where
  sessionId : Option String
  method : String
  isInitBody : Bool

/-- Oracle for the external SDK transport machinery during one request:
`newSessionId` is the id minted by `sessionIdGenerator` for a new transport;
`initDone` records whether the initialization handshake succeeded, i.e.
whether `onsessioninitialized` fired; `selfClose` records whether the
transport's `onclose` hook fired during handling; `throws` records whether
the awaited transport work (`createServer`/`connect`/`handleRequest`) threw;
`headersSent` is `res.headersSent` at the time the catch block runs. -/
structure TransportBehavior where
  newSessionId : String
  initDone : Bool
  selfClose : Bool
  throws : Bool
  headersSent : Bool

/-- Property names a plain `{}` object inherits from `Object.prototype`: a
read `obj[key]` of any of these yields a truthy value (a function, or for
`"__proto__"` the prototype object) even when no own key was ever assigned. -/
def protoKeys : List String :=
  ["constructor", "hasOwnProperty", "isPrototypeOf", "propertyIsEnumerable",
   "toLocaleString", "toString", "valueOf", "__defineGetter__",
   "__defineSetter__", "__lookupGetter__", "__lookupSetter__", "__proto__"]

/-- Truthiness of the plain-object property read `this.transports[sessionId]`
(`src/bridge.js` line 308): truthy for a registered own key (the stored
transport object) and also for every inherited `Object.prototype` member;
`undefined` (falsy) otherwise. -/
def objLookupTruthy (table : List String) (key : String) : Bool :=
  table.contains key || protoKeys.contains key

/-- Key-set effect of `this.transports[sessionId] = transport`: own-key
insertion (an own key shadows any inherited `Object.prototype` member).  The
assigned id comes from `sessionIdGenerator`, i.e. `randomUUID()`, so the
`"__proto__"` setter pathology of a plain-object assignment does not arise. -/
def addSession (table : List String) (sid : String) : List String :=
  if table.contains sid then table else sid :: table

/-- Key-set effect of `delete this.transports[sid]` (deleting an inherited
key is a no-op on the own keys, which is also what dropping a non-member from
the list does). -/
def removeSession (table : List String) (sid : String) : List String :=
  table.filter (fun k => k != sid)

/-- The body of the `try` block of `TransportManager.handleMcpRequest`
(`src/bridge.js` lines 305-341): route the request by the three states of the
spec's state machine; `.error t` means the awaited transport work threw with
the session table left in state `t`; `.ok (t, r)` means normal completion
with table `t` and `r` the response written by `handleMcpRequest` itself
(`none` when the response is delegated to the transport).

The known-session test `sessionId && this.transports[sessionId]` is a plain
JavaScript object read, so it is also truthy for inherited
`Object.prototype` keys (`"constructor"`, `"toString"`, ...): when the key is
registered, the own property shadows the prototype and holds a real
transport, whose behaviour the oracle gives; when it is only an inherited
member, the looked-up value has no callable `handleRequest`, so the awaited
call throws at once (a `TypeError`, no oracle involved) with the table
untouched. -/
def handleMcpRequestTry (table : List String) (req : McpRequest)
    (beh : TransportBehavior) :
    Except (List String) (List String × Option (Nat × Json)) :=
  if strTruthy req.sessionId && objLookupTruthy table (req.sessionId.getD "") then
    if table.contains (req.sessionId.getD "") then
      let table1 :=
        if beh.selfClose then removeSession table (req.sessionId.getD "") else table
      if beh.throws then .error table1 else .ok (table1, none)
    else
      .error table
  else if !strTruthy req.sessionId && (req.method == "POST") && req.isInitBody then
    let table1 := if beh.initDone then addSession table beh.newSessionId else table
    let table2 :=
      if beh.initDone && beh.selfClose then removeSession table1 beh.newSessionId
      else table1
    if beh.throws then .error table2 else .ok (table2, none)
  else
    .ok (table, some (400, badRequestBody))

/-- Full `TransportManager.handleMcpRequest` (`src/bridge.js` lines 304-355):
the `try` body wrapped in the catch block, which writes the 500 body only
when no response headers have been sent yet. -/
def handleMcpRequest (table : List String) (req : McpRequest)
    (beh : TransportBehavior) : List String × Option (Nat × Json) :=
  match handleMcpRequestTry table req beh with
  | .ok r => r
  | .error t => (t, if beh.headersSent then none else some (500, internalErrorBody))

/-- The session table after a sequence of requests against one
`TransportManager`, starting from the empty table. -/
def runRequests (reqs : List (McpRequest × TransportBehavior)) : List String :=
  reqs.foldl (fun t rb => (handleMcpRequest t rb.1 rb.2).1) []

/-- One iteration of the `closeAllTransports` loop on the pair of the current
table and the list of sessions whose close has been attempted: `close()` is
attempted (recorded in the second component); the entry is deleted only when
the close did not throw — a throwing close is caught and logged, leaving the
entry in place. -/
def closeStep (closeFails : String → Bool)
    (acc : List String × List String) (sid : String) : List String × List String :=
  if closeFails sid then (acc.1, acc.2 ++ [sid])
  else (removeSession acc.1 sid, acc.2 ++ [sid])

/-- Translation of `TransportManager.closeAllTransports` (`src/bridge.js`
lines 356-366): iterate over the session table, attempting each close in
order.  Returns the final table and the list of sessions whose close was
attempted, in order.  The `for...in` loop enumerates own enumerable keys
only (the `Object.prototype` members are non-enumerable), so the registered
ids are exactly what it visits. -/
def closeAllTransports (table : List String) (closeFails : String → Bool) :
    List String × List String :=
  table.foldl (closeStep closeFails) (table, [])

/-- What the hosted-mode `/mcp` route does with a request: either write a
plain error response itself, or forward to
`transportManager.handleMcpRequest`. -/
inductive RouteAction where
  | respond (status : Nat) (body : Json)
  | forward (url : String)

/-- The hosted-mode `/mcp` handler installed by `setupMcpRoutes`
(`src/bridge.js` lines 369-391): reject a missing/empty `url` query
parameter, then reject a value on which `new URL(...)` throws (the external
parser is the oracle `validUrl`), otherwise forward to the transport
manager. -/
def hostedMcpRoute (urlParam : Option String) (validUrl : String → Bool) :
    RouteAction :=
  if !strTruthy urlParam then .respond 400 missingUrlBody
  else if validUrl (urlParam.getD "") then .forward (urlParam.getD "")
  else .respond 400 (invalidUrlBody (urlParam.getD ""))

/-! ## Theorems -/

/-! ### Counter rendering -/

theorem revDigitsAux_zero (f : Nat) : revDigitsAux f 0 = [] := by
  cases f <;> rfl

theorem revDigitsAux_succ (f n : Nat) :
    revDigitsAux (f + 1) (n + 1) =
      Nat.digitChar ((n + 1) % 10) :: revDigitsAux f ((n + 1) / 10) := rfl

theorem revDigitsAux_congr :
    ∀ (n f g : Nat), n ≤ f → n ≤ g → revDigitsAux f n = revDigitsAux g n := by
  intro n
  induction n using Nat.strong_induction_on with
  | _ n ih =>
    intro f g hf hg
    match n, f, g, hf, hg with
    | 0, f, g, _, _ => rw [revDigitsAux_zero, revDigitsAux_zero]
    | n + 1, f + 1, g + 1, hf, hg =>
      rw [revDigitsAux_succ, revDigitsAux_succ]
      have hlt : (n + 1) / 10 < n + 1 := Nat.div_lt_self (Nat.succ_pos n) (by omega)
      have h1 : (n + 1) / 10 ≤ f := by omega
      have h2 : (n + 1) / 10 ≤ g := by omega
      rw [ih ((n + 1) / 10) hlt f ((n + 1) / 10) h1 (Nat.le_refl _),
          ih ((n + 1) / 10) hlt g ((n + 1) / 10) h2 (Nat.le_refl _)]

theorem counterDigits_succ (n : Nat) :
    counterDigits (n + 1) =
      Nat.digitChar ((n + 1) % 10) :: counterDigits ((n + 1) / 10) := by
  have hlt : (n + 1) / 10 < n + 1 := Nat.div_lt_self (Nat.succ_pos n) (by omega)
  unfold counterDigits
  rw [revDigitsAux_succ]
  rw [revDigitsAux_congr ((n + 1) / 10) n ((n + 1) / 10) (by omega) (Nat.le_refl _)]

theorem digitChar_toNat {d : Nat} (h : d < 10) : (Nat.digitChar d).toNat = 48 + d := by
  interval_cases d <;> rfl

theorem digitChar_ne_underscore {d : Nat} (h : d < 10) : Nat.digitChar d ≠ '_' := by
  interval_cases d <;> decide

theorem decode_counterDigits : ∀ n, decodeRevDigits (counterDigits n) = n := by
  intro n
  induction n using Nat.strong_induction_on with
  | _ n ih =>
    match n with
    | 0 => rfl
    | n + 1 =>
      rw [counterDigits_succ, decodeRevDigits]
      have hlt : (n + 1) / 10 < n + 1 := Nat.div_lt_self (Nat.succ_pos n) (by omega)
      rw [ih ((n + 1) / 10) hlt]
      rw [digitChar_toNat (Nat.mod_lt _ (by omega))]
      omega

theorem counterDigits_inj {m n : Nat} (h : counterDigits m = counterDigits n) : m = n := by
  have := congrArg decodeRevDigits h
  rwa [decode_counterDigits, decode_counterDigits] at this

theorem counterDigits_no_underscore : ∀ n, ∀ c ∈ counterDigits n, c ≠ '_' := by
  intro n
  induction n using Nat.strong_induction_on with
  | _ n ih =>
    match n with
    | 0 => intro c hc; simp [counterDigits, revDigitsAux] at hc
    | n + 1 =>
      intro c hc
      rw [counterDigits_succ] at hc
      rcases List.mem_cons.mp hc with h | h
      · subst h; exact digitChar_ne_underscore (Nat.mod_lt _ (by omega))
      · exact ih ((n + 1) / 10) (Nat.div_lt_self (Nat.succ_pos n) (by omega)) c h

theorem counterRepr_no_underscore (n : Nat) : ∀ c ∈ (counterRepr n).data, c ≠ '_' := by
  intro c hc
  unfold counterRepr at hc
  by_cases h0 : n = 0
  · simp [h0] at hc
    subst hc; decide
  · simp [h0] at hc
    exact counterDigits_no_underscore n c hc

theorem counterRepr_inj {m n : Nat} (h : counterRepr m = counterRepr n) : m = n := by
  have hd := congrArg String.data h
  unfold counterRepr at hd
  by_cases hm : m = 0 <;> by_cases hn : n = 0
  · omega
  · exfalso
    simp [hm, hn] at hd
    have hd' : counterDigits n = ['0'] := by
      have := congrArg List.reverse hd
      simpa using this.symm
    have hn0 : n = 0 := by
      rw [← decode_counterDigits n, hd']; rfl
    omega
  · exfalso
    simp [hm, hn] at hd
    have hm0 : m = 0 := by
      rw [← decode_counterDigits m, hd]; rfl
    omega
  · simp [hm, hn] at hd
    exact counterDigits_inj hd

/-! ### Event-id uniqueness and store invariants -/

theorem takeWhile_no_underscore (l r : List Char)
    (hl : ∀ c ∈ l, c ≠ '_') :
    (l ++ '_' :: r).takeWhile (fun c => !(c == '_')) = l := by
  have hmem : ∀ c ∈ l, (fun c => !(c == '_')) c := by
    intro c hc
    simpa using hl c hc
  rw [List.takeWhile_append_of_pos hmem]
  simp

theorem generateEventId_inj_counter {s1 s2 : String} {c1 c2 : Nat}
    (h : generateEventId s1 c1 = generateEventId s2 c2) : c1 = c2 := by
  have hu : "_".data = ['_'] := rfl
  have hd : s1.data ++ '_' :: (counterRepr c1).data
      = s2.data ++ '_' :: (counterRepr c2).data := by
    have h' := congrArg String.data h
    simp only [generateEventId, String.data_append, hu] at h'
    simpa [List.append_assoc] using h'
  have hrev : (counterRepr c1).data.reverse ++ '_' :: s1.data.reverse
      = (counterRepr c2).data.reverse ++ '_' :: s2.data.reverse := by
    have h' := congrArg List.reverse hd
    simpa [List.reverse_append] using h'
  have htake : (counterRepr c1).data.reverse = (counterRepr c2).data.reverse := by
    have h1 := takeWhile_no_underscore (counterRepr c1).data.reverse s1.data.reverse
      (fun c hc => counterRepr_no_underscore c1 c (List.mem_reverse.mp hc))
    have h2 := takeWhile_no_underscore (counterRepr c2).data.reverse s2.data.reverse
      (fun c hc => counterRepr_no_underscore c2 c (List.mem_reverse.mp hc))
    rw [← h1, ← h2, hrev]
  have hdata : (counterRepr c1).data = (counterRepr c2).data :=
    List.reverse_injective htake
  exact counterRepr_inj (String.ext hdata)

theorem inv_emptyStore (Msg : Type) : StoreInv (emptyStore Msg) := by
  refine ⟨?_, ?_, ?_⟩ <;> simp [emptyStore]

theorem storeEvent_inv {st : InMemoryEventStore Msg} (hinv : StoreInv st)
    (s : String) (m : Msg) : StoreInv (storeEvent st s m).2 := by
  refine ⟨?_, ?_, ?_⟩
  · intro e he
    simp only [storeEvent, List.mem_append, List.mem_singleton] at he
    rcases he with he | he
    · have := hinv.seq_lt e he
      simp only [storeEvent]
      omega
    · subst he
      simp [storeEvent]
  · simp only [storeEvent]
    rw [List.pairwise_append]
    refine ⟨hinv.sorted, List.pairwise_singleton _ _, ?_⟩
    intro a ha b hb
    rw [List.mem_singleton] at hb
    subst hb
    exact hinv.seq_lt a ha
  · intro e he
    simp only [storeEvent, List.mem_append, List.mem_singleton] at he
    rcases he with he | he
    · exact hinv.id_eq e he
    · subst he; rfl

theorem runFrom_inv {st : InMemoryEventStore Msg} (hinv : StoreInv st)
    (ops : List (String × Msg)) : StoreInv (runFrom st ops) := by
  induction ops generalizing st with
  | nil => exact hinv
  | cons p rest ih => exact ih (storeEvent_inv hinv p.1 p.2)

theorem runTrace_inv (Msg : Type) (ops : List (String × Msg)) :
    StoreInv (runTrace Msg ops) :=
  runFrom_inv (inv_emptyStore Msg) ops

theorem runFrom_cons (st : InMemoryEventStore Msg) (p : String × Msg)
    (rest : List (String × Msg)) :
    runFrom st (p :: rest) = runFrom (storeEvent st p.1 p.2).2 rest := rfl

theorem runFrom_events_ext (st : InMemoryEventStore Msg) (ops : List (String × Msg)) :
    ∃ suf, (runFrom st ops).events = st.events ++ suf := by
  induction ops generalizing st with
  | nil => exact ⟨[], by simp [runFrom]⟩
  | cons p rest ih =>
    rcases ih (storeEvent st p.1 p.2).2 with ⟨suf, hsuf⟩
    refine ⟨[⟨generateEventId p.1 st.counter, p.1, p.2, st.counter⟩] ++ suf, ?_⟩
    rw [runFrom_cons, hsuf]
    simp [storeEvent]

theorem mem_runFrom_events {st : InMemoryEventStore Msg} {e : Event Msg}
    (he : e ∈ st.events) (ops : List (String × Msg)) : e ∈ (runFrom st ops).events := by
  rcases runFrom_events_ext st ops with ⟨suf, hsuf⟩
  rw [hsuf]
  exact List.mem_append_left _ he

theorem runFrom_counter_le (st : InMemoryEventStore Msg) (ops : List (String × Msg)) :
    st.counter ≤ (runFrom st ops).counter := by
  induction ops generalizing st with
  | nil => exact Nat.le_refl _
  | cons p rest ih =>
    rw [runFrom_cons]
    have h1 : st.counter ≤ (storeEvent st p.1 p.2).2.counter := by
      simp [storeEvent]
    exact Nat.le_trans h1 (ih _)

theorem eq_of_pairwise_seq_lt :
    ∀ {l : List (Event Msg)},
      l.Pairwise (fun a b => a.sequence < b.sequence) →
      ∀ {a b : Event Msg}, a ∈ l → b ∈ l → a.sequence = b.sequence → a = b := by
  intro l hp
  induction hp with
  | nil => intro a b ha _ _; cases ha
  | cons hx _ ih =>
    intro a b ha hb h
    rcases List.mem_cons.mp ha with rfl | ha'
    · rcases List.mem_cons.mp hb with rfl | hb'
      · rfl
      · have := hx b hb'; omega
    · rcases List.mem_cons.mp hb with rfl | hb'
      · have := hx a ha'; omega
      · exact ih ha' hb' h

theorem store_id_unique {st : InMemoryEventStore Msg} (hinv : StoreInv st)
    {e1 e2 : Event Msg} (h1 : e1 ∈ st.events) (h2 : e2 ∈ st.events)
    (h : e1.id = e2.id) : e1 = e2 := by
  have he1 := hinv.id_eq e1 h1
  have he2 := hinv.id_eq e2 h2
  have hseq : e1.sequence = e2.sequence := by
    apply @generateEventId_inj_counter e1.streamId e2.streamId e1.sequence e2.sequence
    rw [← he1, ← he2, h]
  exact eq_of_pairwise_seq_lt hinv.sorted h1 h2 hseq

theorem find?_id_of_mem {st : InMemoryEventStore Msg} (hinv : StoreInv st)
    {e : Event Msg} (he : e ∈ st.events) :
    st.events.find? (fun x => x.id == e.id) = some e := by
  cases hf : st.events.find? (fun x => x.id == e.id) with
  | none =>
    rw [List.find?_eq_none] at hf
    have := hf e he
    simp at this
  | some f =>
    have hmem := List.mem_of_find?_eq_some hf
    have hid : f.id = e.id := by
      have := List.find?_some hf
      simpa using this
    rw [store_id_unique hinv hmem he hid]

theorem replay_fst_of_find {st : InMemoryEventStore Msg} {lastId : String}
    {e : Event Msg} (hf : st.events.find? (fun x => x.id == lastId) = some e) :
    (replayEventsAfter st lastId).1 = e.streamId := by
  simp [replayEventsAfter, hf]

theorem replay_snd_of_find {st : InMemoryEventStore Msg} {lastId : String}
    {e : Event Msg} (hf : st.events.find? (fun x => x.id == lastId) = some e) :
    (replayEventsAfter st lastId).2 =
      (st.events.filter
        (fun e2 => e2.streamId == e.streamId && decide (e.sequence < e2.sequence))).map
        (fun e2 => (e2.id, e2.message)) := by
  simp [replayEventsAfter, hf]

theorem replayedEvents_of_find {st : InMemoryEventStore Msg} {lastId : String}
    {e : Event Msg} (hf : st.events.find? (fun x => x.id == lastId) = some e) :
    replayedEvents st lastId =
      st.events.filter
        (fun e2 => e2.streamId == e.streamId && decide (e.sequence < e2.sequence)) := by
  simp [replayedEvents, hf]

theorem generateEventId_ne_empty (s : String) (c : Nat) : generateEventId s c ≠ "" := by
  intro h
  have hdata := congrArg String.data h
  simp only [generateEventId, String.data_append] at hdata
  rcases List.append_eq_nil.mp hdata with ⟨h1, _⟩
  rcases List.append_eq_nil.mp h1 with ⟨_, h3⟩
  exact absurd h3 (by decide)

/-! ### Event-log claims -/

/-- Claim C1: appending M1, M2, M3 to stream "s" in order and replaying after
the first returned id delivers exactly (E2, M2) then (E3, M3) — never the
looked-up event itself — and returns "s"; in general, when the replay finds
the looked-up event it returns that event's stream id, every delivered event
is a same-stream event of strictly greater sequence, the delivery order is
ascending in sequence (store order), and the sink sees exactly those events as
`(id, message)` pairs. -/
theorem replay_scenario_and_strict_after (Msg : Type) :
    (∀ M1 M2 M3 : Msg,
      replayEventsAfter
          (storeEvent (storeEvent (storeEvent (emptyStore Msg) "s" M1).2 "s" M2).2 "s" M3).2
          (storeEvent (emptyStore Msg) "s" M1).1
        = ("s",
            [((storeEvent (storeEvent (emptyStore Msg) "s" M1).2 "s" M2).1, M2),
             ((storeEvent (storeEvent (storeEvent (emptyStore Msg) "s" M1).2 "s" M2).2 "s" M3).1, M3)]))
    ∧ (∀ (ops : List (String × Msg)) (lastId : String) (e : Event Msg),
        (runTrace Msg ops).events.find? (fun x => x.id == lastId) = some e →
        (replayEventsAfter (runTrace Msg ops) lastId).1 = e.streamId
        ∧ (∀ e2 ∈ replayedEvents (runTrace Msg ops) lastId,
            e2.streamId = e.streamId ∧ e.sequence < e2.sequence)
        ∧ (replayedEvents (runTrace Msg ops) lastId).Pairwise
            (fun a b => a.sequence < b.sequence)
        ∧ (replayEventsAfter (runTrace Msg ops) lastId).2
            = (replayedEvents (runTrace Msg ops) lastId).map
                (fun e2 => (e2.id, e2.message))) := by
  constructor
  · intro M1 M2 M3
    rfl
  · intro ops lastId e hf
    refine ⟨replay_fst_of_find hf, ?_, ?_, ?_⟩
    · intro e2 he2
      rw [replayedEvents_of_find hf, List.mem_filter] at he2
      have := he2.2
      simp at this
      exact ⟨this.1, this.2⟩
    · rw [replayedEvents_of_find hf]
      exact (runTrace_inv Msg ops).sorted.sublist (List.filter_sublist _)
    · rw [replay_snd_of_find hf, replayedEvents_of_find hf]

/-- Witness for C1 at a concrete trace: three messages on stream "s",
replaying after the first id. -/
theorem replay_scenario_and_strict_after_witness :
    (runTrace Nat [("s", 1), ("s", 2), ("s", 3)]).events.find?
        (fun x => x.id == "s_0") = some ⟨"s_0", "s", 1, 0⟩
    ∧ (replayEventsAfter (runTrace Nat [("s", 1), ("s", 2), ("s", 3)]) "s_0").1 = "s" :=
  ⟨by decide,
   ((replay_scenario_and_strict_after Nat).2 [("s", 1), ("s", 2), ("s", 3)] "s_0"
      ⟨"s_0", "s", 1, 0⟩ (by decide)).1⟩

/-- Claim C5: for every stream id `s` — also one containing an underscore —
and every id returned by `storeEvent s m` at any point of a trace, replaying
after that id at any later point returns exactly `s`. -/
theorem replay_returns_exact_streamId (Msg : Type) (pre post : List (String × Msg))
    (s : String) (m : Msg) :
    (replayEventsAfter (runTrace Msg (pre ++ (s, m) :: post))
        (storeEvent (runTrace Msg pre) s m).1).1 = s := by
  have hrun : runTrace Msg (pre ++ (s, m) :: post)
      = runFrom (storeEvent (runTrace Msg pre) s m).2 post := by
    unfold runTrace runFrom
    rw [List.foldl_append]
    rfl
  have hinv : StoreInv (runFrom (storeEvent (runTrace Msg pre) s m).2 post) :=
    runFrom_inv (storeEvent_inv (runTrace_inv Msg pre) s m) post
  have hne : (⟨(storeEvent (runTrace Msg pre) s m).1, s, m,
        (runTrace Msg pre).counter⟩ : Event Msg)
      ∈ (storeEvent (runTrace Msg pre) s m).2.events := by
    simp [storeEvent]
  have hfind :
      (runFrom (storeEvent (runTrace Msg pre) s m).2 post).events.find?
          (fun x => x.id == (storeEvent (runTrace Msg pre) s m).1)
        = some ⟨(storeEvent (runTrace Msg pre) s m).1, s, m,
            (runTrace Msg pre).counter⟩ :=
    find?_id_of_mem hinv (mem_runFrom_events hne post)
  rw [hrun]
  exact replay_fst_of_find hfind

/-- Claim C6: the event ids returned by any number of `storeEvent` calls on
one store are pairwise distinct for the lifetime of the log. -/
theorem storeEvent_ids_pairwise_distinct (Msg : Type) (ops : List (String × Msg)) :
    (traceIds Msg ops).Nodup := by
  have main : ∀ (ops : List (String × Msg)) (st : InMemoryEventStore Msg),
      (∀ id ∈ traceIdsFrom st ops, ∃ s c, st.counter ≤ c ∧ id = generateEventId s c)
      ∧ (traceIdsFrom st ops).Nodup := by
    intro ops
    induction ops with
    | nil => exact fun st => ⟨fun id h => absurd h (List.not_mem_nil id), List.nodup_nil⟩
    | cons p rest ih =>
      intro st
      obtain ⟨ihA, ihB⟩ := ih (storeEvent st p.1 p.2).2
      constructor
      · intro id hid
        rcases List.mem_cons.mp hid with rfl | hid'
        · exact ⟨p.1, st.counter, Nat.le_refl _, rfl⟩
        · rcases ihA id hid' with ⟨s, c, hc, hideq⟩
          have hcc : (storeEvent st p.1 p.2).2.counter = st.counter + 1 := rfl
          exact ⟨s, c, by omega, hideq⟩
      · show ((storeEvent st p.1 p.2).1
            :: traceIdsFrom (storeEvent st p.1 p.2).2 rest).Nodup
        rw [List.nodup_cons]
        refine ⟨?_, ihB⟩
        intro hmem
        rcases ihA _ hmem with ⟨s, c, hc, hideq⟩
        have hceq : st.counter = c :=
          generateEventId_inj_counter
            (show generateEventId p.1 st.counter = generateEventId s c from hideq)
        have hcc : (storeEvent st p.1 p.2).2.counter = st.counter + 1 := rfl
        omega
  exact (main ops (emptyStore Msg)).2

/-- Claim C7: replaying after an id of one stream never delivers an event
stored on a different stream: every `(id, message)` pair delivered to the
sink belongs to an event of the stream returned by the replay call. -/
theorem replay_stream_isolation (Msg : Type) (ops : List (String × Msg))
    (lastId : String) (e : Event Msg)
    (he : e ∈ (runTrace Msg ops).events)
    (hmem : (e.id, e.message) ∈ (replayEventsAfter (runTrace Msg ops) lastId).2) :
    e.streamId = (replayEventsAfter (runTrace Msg ops) lastId).1 := by
  have hinv := runTrace_inv Msg ops
  cases hf : (runTrace Msg ops).events.find? (fun x => x.id == lastId) with
  | none =>
    exfalso
    simp [replayEventsAfter, hf] at hmem
  | some f =>
    rw [replay_snd_of_find hf, List.mem_map] at hmem
    obtain ⟨e2, he2, heq⟩ := hmem
    rw [List.mem_filter] at he2
    obtain ⟨he2mem, he2p⟩ := he2
    have hid : e2.id = e.id := congrArg Prod.fst heq
    have hee : e2 = e := store_id_unique hinv he2mem he hid
    subst hee
    have hstream : e2.streamId = f.streamId := by
      simp at he2p
      exact he2p.1
    rw [replay_fst_of_find hf, hstream]

/-- Witness for C7: stream "b" interleaved between two appends to stream "a";
the event delivered after replaying "a"'s first id belongs to "a". -/
theorem replay_stream_isolation_witness :
    (⟨"a_2", "a", 30, 2⟩ : Event Nat) ∈ (runTrace Nat [("a", 10), ("b", 20), ("a", 30)]).events
    ∧ ("a_2", 30) ∈ (replayEventsAfter (runTrace Nat [("a", 10), ("b", 20), ("a", 30)]) "a_0").2
    ∧ (⟨"a_2", "a", 30, 2⟩ : Event Nat).streamId
        = (replayEventsAfter (runTrace Nat [("a", 10), ("b", 20), ("a", 30)]) "a_0").1 :=
  ⟨by decide, by decide,
   replay_stream_isolation Nat [("a", 10), ("b", 20), ("a", 30)] "a_0"
     ⟨"a_2", "a", 30, 2⟩ (by decide) (by decide)⟩

/-- Claim C8: replaying after an id that is not the id of any stored event —
empty, malformed, unknown, or minted elsewhere — returns the empty stream
identity with zero sink invocations (and the empty id is never a stored id). -/
theorem replay_unknown_id_noop (Msg : Type) :
    (∀ (ops : List (String × Msg)) (lastId : String),
        lastId ∉ (runTrace Msg ops).events.map Event.id →
        replayEventsAfter (runTrace Msg ops) lastId = ("", []))
    ∧ ∀ ops : List (String × Msg), "" ∉ (runTrace Msg ops).events.map Event.id := by
  constructor
  · intro ops lastId hni
    have hf : (runTrace Msg ops).events.find? (fun x => x.id == lastId) = none := by
      rw [List.find?_eq_none]
      intro x hx hbeq
      simp only [beq_iff_eq] at hbeq
      exact hni (hbeq ▸ List.mem_map_of_mem Event.id hx)
    simp [replayEventsAfter, hf]
  · intro ops hmem
    rw [List.mem_map] at hmem
    obtain ⟨e, he, hid⟩ := hmem
    have hgen := (runTrace_inv Msg ops).id_eq e he
    exact generateEventId_ne_empty e.streamId e.sequence (by rw [← hgen, hid])

/-- Witness for C8: an id foreign to the log replays nothing. -/
theorem replay_unknown_id_noop_witness :
    "bogus" ∉ (runTrace Nat [("s", 5)]).events.map Event.id
    ∧ replayEventsAfter (runTrace Nat [("s", 5)]) "bogus" = ("", []) :=
  ⟨by decide, (replay_unknown_id_noop Nat).1 [("s", 5)] "bogus" (by decide)⟩

/-! ### Session transport manager lemmas -/

theorem mem_removeSession {t : List String} {sid k : String}
    (h : k ∈ removeSession t sid) : k ∈ t :=
  (List.mem_filter.mp h).1

theorem mem_addSession {t : List String} {sid k : String}
    (h : k ∈ addSession t sid) : k ∈ t ∨ k = sid := by
  unfold addSession at h
  cases hc : t.contains sid with
  | true => rw [hc] at h; simp at h; exact .inl h
  | false =>
    rw [hc] at h
    simp at h
    rcases h with h | h
    · exact .inr h
    · exact .inl h

theorem handleMcpRequest_mem_table {table : List String} {req : McpRequest}
    {beh : TransportBehavior} {sid : String}
    (hmem : sid ∈ (handleMcpRequest table req beh).1) :
    sid ∈ table
    ∨ (beh.initDone = true ∧ sid = beh.newSessionId
        ∧ strTruthy req.sessionId = false ∧ req.method = "POST"
        ∧ req.isInitBody = true) := by
  unfold handleMcpRequest handleMcpRequestTry at hmem
  cases hc1 : strTruthy req.sessionId && objLookupTruthy table (req.sessionId.getD "") with
  | true =>
    rw [hc1] at hmem
    simp only [if_true] at hmem
    left
    cases hco : table.contains (req.sessionId.getD "") with
    | true =>
      rw [hco] at hmem
      simp only [if_true] at hmem
      cases hbt : beh.throws <;> cases hsc : beh.selfClose <;>
        simp only [hbt, hsc, if_true, if_false] at hmem <;>
        first
          | exact hmem
          | exact mem_removeSession hmem
    | false =>
      rw [hco] at hmem
      simp only [Bool.false_eq_true, if_false] at hmem
      exact hmem
  | false =>
    rw [hc1] at hmem
    simp only [Bool.false_eq_true, if_false] at hmem
    cases hc2 : (!strTruthy req.sessionId && (req.method == "POST") && req.isInitBody) with
    | false =>
      rw [hc2] at hmem
      simp only [Bool.false_eq_true, if_false] at hmem
      exact .inl hmem
    | true =>
      rw [hc2] at hmem
      simp only [if_true] at hmem
      have hparts : strTruthy req.sessionId = false ∧ req.method = "POST"
          ∧ req.isInitBody = true := by
        simp only [Bool.and_eq_true, Bool.not_eq_true', beq_iff_eq] at hc2
        exact ⟨hc2.1.1, hc2.1.2, hc2.2⟩
      cases hid : beh.initDone with
      | false =>
        cases hbt : beh.throws <;>
          simp only [hid, hbt, Bool.false_and, Bool.false_eq_true, if_false, if_true] at hmem <;>
          exact .inl hmem
      | true =>
        refine Or.imp id (fun h => ⟨rfl, h, hparts.1, hparts.2.1, hparts.2.2⟩) ?_
        cases hsc : beh.selfClose <;> cases hbt : beh.throws <;>
          simp only [hid, hsc, hbt, Bool.true_and, Bool.false_eq_true,
            if_false, if_true] at hmem
        all_goals first
          | exact mem_addSession hmem
          | exact mem_addSession (mem_removeSession hmem)

theorem runRequests_mem :
    ∀ (reqs : List (McpRequest × TransportBehavior)) (t : List String) (sid : String),
      sid ∈ reqs.foldl (fun t rb => (handleMcpRequest t rb.1 rb.2).1) t →
      sid ∈ t
      ∨ ∃ rb ∈ reqs, rb.2.initDone = true ∧ sid = rb.2.newSessionId
          ∧ strTruthy rb.1.sessionId = false ∧ rb.1.method = "POST"
          ∧ rb.1.isInitBody = true := by
  intro reqs
  induction reqs with
  | nil => intro t sid h; exact .inl h
  | cons rb rest ih =>
    intro t sid h
    rw [List.foldl_cons] at h
    rcases ih _ sid h with h' | ⟨rb', hrb', hprop⟩
    · rcases handleMcpRequest_mem_table h' with h'' | hprop
      · exact .inl h''
      · exact .inr ⟨rb, List.mem_cons_self rb rest, hprop⟩
    · exact .inr ⟨rb', List.mem_cons_of_mem rb hrb', hprop⟩

theorem closeAll_foldl_snd (closeFails : String → Bool) :
    ∀ (l t a : List String),
      (l.foldl (closeStep closeFails) (t, a)).2 = a ++ l := by
  intro l
  induction l with
  | nil => intro t a; simp
  | cons sid rest ih =>
    intro t a
    rw [List.foldl_cons]
    cases h : closeFails sid <;>
      simp only [closeStep, h, Bool.false_eq_true, if_false, if_true] <;>
      rw [ih] <;> simp

theorem closeAll_foldl_fst (closeFails : String → Bool) :
    ∀ (l t a : List String),
      (l.foldl (closeStep closeFails) (t, a)).1
        = t.filter (fun k => closeFails k || !(l.contains k)) := by
  intro l
  induction l with
  | nil =>
    intro t a
    rw [List.foldl_nil]
    refine (List.filter_eq_self.mpr ?_).symm
    intro k _
    simp
  | cons sid rest ih =>
    intro t a
    rw [List.foldl_cons]
    cases h : closeFails sid with
    | true =>
      have hstep : closeStep closeFails (t, a) sid = (t, a ++ [sid]) := by
        simp [closeStep, h]
      rw [hstep, ih]
      apply List.filter_congr
      intro x _
      by_cases hxs : x = sid
      · subst hxs; simp [h]
      · simp [List.contains_cons, hxs]
    | false =>
      have hstep : closeStep closeFails (t, a) sid = (removeSession t sid, a ++ [sid]) := by
        simp [closeStep, h]
      rw [hstep]
      unfold removeSession
      rw [ih, List.filter_filter]
      apply List.filter_congr
      intro x _
      by_cases hxs : x = sid
      · subst hxs; simp [h]
      · simp [List.contains_cons, hxs]

/-! ### Session transport manager claims -/

theorem reject_400_of_unmatched {table : List String} {req : McpRequest}
    (beh : TransportBehavior)
    (hsess : ¬(strTruthy req.sessionId = true
        ∧ objLookupTruthy table (req.sessionId.getD "") = true))
    (hinit : ¬(strTruthy req.sessionId = false ∧ req.method = "POST"
        ∧ req.isInitBody = true)) :
    handleMcpRequest table req beh = (table, some (400, badRequestBody)) := by
  have h1 : (strTruthy req.sessionId
      && objLookupTruthy table (req.sessionId.getD "")) = false := by
    cases hst : strTruthy req.sessionId <;>
      cases hct : objLookupTruthy table (req.sessionId.getD "") <;> simp_all
  have h2 : (!strTruthy req.sessionId && (req.method == "POST") && req.isInitBody) = false := by
    cases hst : strTruthy req.sessionId <;> cases hmp : req.method == "POST" <;>
      cases hib : req.isInitBody <;> simp_all
  unfold handleMcpRequest handleMcpRequestTry
  rw [h1, h2]
  simp

/-- Counterexample to claim C2 as stated: the request header
`mcp-session-id: constructor` names no live session and is not a valid
initialization request, yet the plain-object lookup finds the inherited
`Object.prototype.constructor` (truthy), the known-session branch is taken,
the non-callable value makes handling throw, and the catch answers 500 — not
the claimed 400. -/
theorem handleMcpRequest_reject_400_counterexample :
    handleMcpRequest [] ⟨some "constructor", "GET", false⟩
        ⟨"x", false, false, false, false⟩
      = ([], some (500, internalErrorBody))
    ∧ handleMcpRequest [] ⟨some "constructor", "GET", false⟩
        ⟨"x", false, false, false, false⟩
      ≠ ([], some (400, badRequestBody)) := by
  constructor
  · rfl
  · intro h
    have h1 : some ((500 : Nat), internalErrorBody)
        = some ((400 : Nat), badRequestBody) := congrArg Prod.snd h
    have h2 : (500 : Nat) = 400 := congrArg Prod.fst (Option.some.inj h1)
    exact absurd h2 (by decide)

/-- Claim C2 (amended): every inbound request that carries no session id
matching a live session and is not a valid initialization request is answered
with HTTP 400 and exactly the literal bad-request JSON-RPC body, with the
session table returned untouched — provided its session id is not an
inherited `Object.prototype` property name; a request bearing such a
prototype-key id instead takes the known-session branch and ends in the
500 error path. -/
theorem handleMcpRequest_reject_400 (table : List String) (req : McpRequest)
    (beh : TransportBehavior)
    (hsess : ¬(strTruthy req.sessionId = true
        ∧ table.contains (req.sessionId.getD "") = true))
    (hinit : ¬(strTruthy req.sessionId = false ∧ req.method = "POST"
        ∧ req.isInitBody = true))
    (hproto : protoKeys.contains (req.sessionId.getD "") = false) :
    handleMcpRequest table req beh = (table, some (400, badRequestBody)) := by
  apply reject_400_of_unmatched beh
  · rintro ⟨h1, h2⟩
    unfold objLookupTruthy at h2
    rw [hproto] at h2
    rw [Bool.or_false] at h2
    exact hsess ⟨h1, h2⟩
  · exact hinit

/-- Witness for C2 (amended): a GET request with no session header on an
empty table. -/
theorem handleMcpRequest_reject_400_witness :
    ¬(strTruthy (none : Option String) = true
        ∧ ([] : List String).contains ((none : Option String).getD "") = true)
    ∧ ¬(strTruthy (none : Option String) = false ∧ "GET" = "POST" ∧ false = true)
    ∧ protoKeys.contains ((none : Option String).getD "") = false
    ∧ handleMcpRequest [] ⟨none, "GET", false⟩ ⟨"x", false, false, false, false⟩
        = ([], some (400, badRequestBody)) :=
  ⟨by decide, by decide, by decide,
   handleMcpRequest_reject_400 [] ⟨none, "GET", false⟩ ⟨"x", false, false, false, false⟩
     (by decide) (by decide) (by decide)⟩

/-- Claim C3: when a request is routed to an established session and the
transport handling throws, no exception escapes `handleMcpRequest` (the try
body throws and the catch recovers): if no response headers have been sent it
answers HTTP 500 with exactly the literal internal-error JSON-RPC body, and
if headers have already been sent it writes neither a status nor a body. -/
theorem handleMcpRequest_error_path (table : List String) (req : McpRequest)
    (beh : TransportBehavior)
    (hsess : strTruthy req.sessionId = true)
    (hct : table.contains (req.sessionId.getD "") = true)
    (hthrow : beh.throws = true) :
    (∃ t, handleMcpRequestTry table req beh = Except.error t)
    ∧ (handleMcpRequest table req beh).2
        = (if beh.headersSent then none else some (500, internalErrorBody)) := by
  have h1 : (strTruthy req.sessionId
      && objLookupTruthy table (req.sessionId.getD "")) = true := by
    rw [hsess]
    unfold objLookupTruthy
    rw [hct]
    rfl
  constructor
  · refine ⟨if beh.selfClose then removeSession table (req.sessionId.getD "") else table, ?_⟩
    unfold handleMcpRequestTry
    rw [h1, hct, hthrow]
    simp
  · unfold handleMcpRequest handleMcpRequestTry
    rw [h1, hct, hthrow]
    simp

/-- Witness for C3: an established session "sid1" whose transport throws with
headers already sent: the try body errors and nothing is written. -/
theorem handleMcpRequest_error_path_witness :
    strTruthy (some "sid1") = true
    ∧ (["sid1"] : List String).contains ((some "sid1").getD "") = true
    ∧ (⟨"x", false, false, true, true⟩ : TransportBehavior).throws = true
    ∧ (∃ t, handleMcpRequestTry ["sid1"] ⟨some "sid1", "POST", false⟩
          ⟨"x", false, false, true, true⟩ = Except.error t)
    ∧ (handleMcpRequest ["sid1"] ⟨some "sid1", "POST", false⟩
          ⟨"x", false, false, true, true⟩).2 = none :=
  ⟨by decide, by decide, rfl,
   (handleMcpRequest_error_path ["sid1"] ⟨some "sid1", "POST", false⟩
      ⟨"x", false, false, true, true⟩ (by decide) (by decide) rfl).1,
   (handleMcpRequest_error_path ["sid1"] ⟨some "sid1", "POST", false⟩
      ⟨"x", false, false, true, true⟩ (by decide) (by decide) rfl).2⟩

/-- Counterexample to claim C4 as stated: with a single session whose close
throws, the session table still holds that session on completion — the code
deletes an entry only after a successful close, so the table is not left
empty "regardless of individual failures". -/
theorem closeAllTransports_counterexample :
    (closeAllTransports ["s1"] (fun _ => true)).1 = ["s1"] := rfl

/-- Claim C4 (amended): `closeAllTransports` attempts to close every session
in the table, in order; a per-session close failure neither propagates nor
prevents the remaining closures; every session whose close succeeded is
removed and exactly the sessions whose close threw remain — in particular the
table is left empty when every close succeeds. -/
theorem closeAllTransports_spec (table : List String) (closeFails : String → Bool) :
    (closeAllTransports table closeFails).2 = table
    ∧ (closeAllTransports table closeFails).1 = table.filter closeFails
    ∧ ((∀ sid ∈ table, closeFails sid = false) →
        (closeAllTransports table closeFails).1 = []) := by
  have hsnd := closeAll_foldl_snd closeFails table table []
  have hfst := closeAll_foldl_fst closeFails table table []
  have hfilter : (closeAllTransports table closeFails).1 = table.filter closeFails := by
    unfold closeAllTransports
    rw [hfst]
    apply List.filter_congr
    intro x hx
    have hcx : table.contains x = true := List.elem_iff.mpr hx
    rw [hcx]
    simp
  refine ⟨?_, hfilter, ?_⟩
  · unfold closeAllTransports
    rw [hsnd]
    simp
  · intro hall
    rw [hfilter, List.filter_eq_nil_iff]
    intro a ha
    simp [hall a ha]

/-- Witness for C4 (amended): two sessions whose closes succeed leave the
table empty. -/
theorem closeAllTransports_spec_witness :
    (∀ sid ∈ ["a", "b"], (fun (_ : String) => false) sid = false)
    ∧ (closeAllTransports ["a", "b"] (fun _ => false)).1 = [] :=
  ⟨by decide, (closeAllTransports_spec ["a", "b"] (fun _ => false)).2.2 (by decide)⟩

/-- Counterexample to claim C9 as stated: a request bearing the session id
"toString" — absent from the table, since no initialization ever registered
it — is not rejected with the 400 body: the plain-object lookup finds the
inherited `Object.prototype.toString` (truthy), routes the request into the
known-session branch, the non-callable value makes handling throw, and the
catch answers 500. -/
theorem session_table_requires_init_success_counterexample :
    handleMcpRequest [] ⟨some "toString", "POST", false⟩
        ⟨"y", false, false, false, false⟩
      = ([], some (500, internalErrorBody))
    ∧ handleMcpRequest [] ⟨some "toString", "POST", false⟩
        ⟨"y", false, false, false, false⟩
      ≠ ([], some (400, badRequestBody)) := by
  constructor
  · rfl
  · intro h
    have h1 : some ((500 : Nat), internalErrorBody)
        = some ((400 : Nat), badRequestBody) := congrArg Prod.snd h
    have h2 : (500 : Nat) = 400 := congrArg Prod.fst (Option.some.inj h1)
    exact absurd h2 (by decide)

/-- Claim C9 (amended): the session table only ever contains sessions whose
initialization handshake succeeded — after any sequence of requests starting
from the empty table, every id in the table was registered by the
`onsessioninitialized` callback of a valid initialization request whose
handshake succeeded; and a request bearing a session id absent from the
table is rejected with the 400 body rather than routed, provided that id is
not an inherited `Object.prototype` property name (a prototype-key id takes
the known-session branch and ends in the 500 error path, still without
touching the table). -/
theorem session_table_requires_init_success :
    (∀ (reqs : List (McpRequest × TransportBehavior)) (sid : String),
        sid ∈ runRequests reqs →
        ∃ rb ∈ reqs, rb.2.initDone = true ∧ sid = rb.2.newSessionId
          ∧ strTruthy rb.1.sessionId = false ∧ rb.1.method = "POST"
          ∧ rb.1.isInitBody = true)
    ∧ (∀ (table : List String) (req : McpRequest) (beh : TransportBehavior)
          (s : String),
        req.sessionId = some s → s ≠ "" → table.contains s = false →
        protoKeys.contains s = false →
        handleMcpRequest table req beh = (table, some (400, badRequestBody))) := by
  constructor
  · intro reqs sid h
    rcases runRequests_mem reqs [] sid h with h' | h'
    · cases h'
    · exact h'
  · intro table req beh s hs hne hct hproto
    apply reject_400_of_unmatched
    · rintro ⟨-, h2⟩
      rw [hs] at h2
      unfold objLookupTruthy at h2
      simp only [Option.getD_some] at h2
      rw [hct, hproto] at h2
      cases h2
    · rintro ⟨h1, -⟩
      rw [hs] at h1
      simp [strTruthy] at h1
      exact hne h1

/-- Witness for C9: a single successful initialization request registers
exactly its minted session id. -/
theorem session_table_requires_init_success_witness :
    "abc" ∈ runRequests [(⟨none, "POST", true⟩, ⟨"abc", true, false, false, false⟩)]
    ∧ ∃ rb ∈ [((⟨none, "POST", true⟩ : McpRequest),
          (⟨"abc", true, false, false, false⟩ : TransportBehavior))],
        rb.2.initDone = true ∧ "abc" = rb.2.newSessionId
          ∧ strTruthy rb.1.sessionId = false ∧ rb.1.method = "POST"
          ∧ rb.1.isInitBody = true :=
  ⟨by decide,
   session_table_requires_init_success.1
     [(⟨none, "POST", true⟩, ⟨"abc", true, false, false, false⟩)] "abc" (by decide)⟩

/-- Claim C10: in hosted mode a `/mcp` request with a missing (or empty)
`url` query parameter, or one whose value does not parse as a URL, is
answered 400 with the corresponding plain error body, which differs from both
JSON-RPC error bodies of the session layer; the transport manager is never
invoked for such a request — the handler forwards only a present, nonempty,
parseable url value. -/
theorem hostedMcpRoute_rejects_bad_url (urlParam : Option String)
    (validUrl : String → Bool) :
    (strTruthy urlParam = false →
        hostedMcpRoute urlParam validUrl = .respond 400 missingUrlBody)
    ∧ (∀ u, urlParam = some u → u ≠ "" → validUrl u = false →
        hostedMcpRoute urlParam validUrl = .respond 400 (invalidUrlBody u))
    ∧ missingUrlBody ≠ badRequestBody
    ∧ missingUrlBody ≠ internalErrorBody
    ∧ (∀ u, invalidUrlBody u ≠ badRequestBody ∧ invalidUrlBody u ≠ internalErrorBody)
    ∧ (∀ u', hostedMcpRoute urlParam validUrl = .forward u' →
        urlParam = some u' ∧ u' ≠ "" ∧ validUrl u' = true) := by
  refine ⟨?_, ?_, ?_, ?_, ?_, ?_⟩
  · intro h
    unfold hostedMcpRoute
    rw [h]
    simp
  · intro u hu hne hv
    subst hu
    have hst : strTruthy (some u) = true := by simp [strTruthy, hne]
    unfold hostedMcpRoute
    rw [hst]
    simp [hv]
  · simp [missingUrlBody, badRequestBody]
  · simp [missingUrlBody, internalErrorBody]
  · intro u
    constructor
    · simp [invalidUrlBody, badRequestBody]
    · simp [invalidUrlBody, internalErrorBody]
  · intro u' hf
    cases urlParam with
    | none =>
      simp [hostedMcpRoute, strTruthy] at hf
    | some s =>
      by_cases hse : s = ""
      · subst hse
        simp [hostedMcpRoute, strTruthy] at hf
      · have hst : strTruthy (some s) = true := by simp [strTruthy, hse]
        unfold hostedMcpRoute at hf
        rw [hst] at hf
        simp only [Bool.not_true, Bool.false_eq_true, if_false, Option.getD_some] at hf
        cases hv : validUrl s with
        | false =>
          rw [hv] at hf
          simp at hf
        | true =>
          rw [hv] at hf
          simp only [if_true] at hf
          have hsu : s = u' := by
            cases hf
            rfl
          subst hsu
          exact ⟨rfl, hse, hv⟩

/-- Witness for C10: a missing url parameter and an unparsable url value are
both answered 400 with the plain bodies. -/
theorem hostedMcpRoute_rejects_bad_url_witness :
    strTruthy (none : Option String) = false
    ∧ hostedMcpRoute none (fun _ => true) = .respond 400 missingUrlBody
    ∧ ((some "notaurl" : Option String) = some "notaurl" ∧ "notaurl" ≠ ""
        ∧ (fun (_ : String) => false) "notaurl" = false)
    ∧ hostedMcpRoute (some "notaurl") (fun _ => false)
        = .respond 400 (invalidUrlBody "notaurl") :=
  ⟨rfl, (hostedMcpRoute_rejects_bad_url none (fun _ => true)).1 rfl,
   ⟨rfl, by decide, rfl⟩,
   (hostedMcpRoute_rejects_bad_url (some "notaurl") (fun _ => false)).2.1 "notaurl"
     rfl (by decide) rfl⟩

end StaticMCP
